import Mathlib

/-!
Verification of the core search-engine logic (`app/search_engine.py`)

This file gives a shallow embedding of the indexing and search logic of the
repository's `SearchEngine` class together with proofs about it.

Modelling conventions:

* Python strings are Lean `String`s; we model the ASCII fragment of
  `str.lower()`, `str.strip()` and of the regex class `\w`
  (alphanumeric or underscore), which covers every input appearing in the
  spec and in this development.
* The SQLAlchemy store (PostgreSQL) is modelled explicitly: the committed
  database state is a `Store` (documents plus inverted-index rows), and the
  session protocol of `add_document` (two separate `commit` calls with a
  `rollback` that can only discard uncommitted rows) is modelled by explicit
  state passing.  Failures of the environment (a commit raising, the Redis
  flush raising, the database raising during search) are injected through an
  explicit failure schedule, mirroring the `try/except` structure of the code.
* The Redis result cache is a partial map from cache keys to result lists;
  `flushdb` empties it.
* SQL `double precision` arithmetic is idealised as real arithmetic.
  PostgreSQL's `log` (the function emitted for SQLAlchemy's `func.log`) is
  the base-10 logarithm, modelled by `Real.logb 10`.
* Side effects relevant to the claims (cache/store accesses and `stderr`
  error logs) are recorded in an operation trace.
-/

/-- ASCII fragment of Python's `\w` regex class: letters, digits, underscore. -/
def isWordChar (c : Char) : Bool :=
  c.isAlphanum || c == '_'

/-- ASCII fragment of Python's `str.lower`. -/
def pyLower (s : String) : String :=
  String.mk (s.toList.map Char.toLower)

/-- ASCII fragment of Python's `str.strip`: drop whitespace at both ends. -/
def pyStrip (s : String) : String :=
  String.mk (((s.toList.dropWhile Char.isWhitespace).reverse.dropWhile
    Char.isWhitespace).reverse)

/-- Auxiliary scanner for `re.findall(r"\b\w+\b", ·)`: `acc` holds the
(reversed) word-character run currently being matched; a separator closes the
run.  The scan emits exactly the maximal word-character runs, in order. -/
def runsAux : List Char → List Char → List (List Char)
  | acc, [] => if acc.isEmpty then [] else [acc.reverse]
  | acc, c :: cs =>
    if isWordChar c then
      runsAux (c :: acc) cs
    else if acc.isEmpty then
      runsAux [] cs
    else
      acc.reverse :: runsAux [] cs

/-- The match list of `re.findall(r"\b\w+\b", ·)` over a character list. -/
def wordRuns (cs : List Char) : List (List Char) := runsAux [] cs

/-- Embedding of `split_to_words` (`app/search_engine.py`, lines 28–32):
`re.findall(r"\b\w+\b", text.lower())`.  The `if not text` early return is
subsumed: the scan of an empty string already yields `[]`. -/
def split_to_words (text : String) : List String :=
  (wordRuns (text.toList.map Char.toLower)).map String.mk

/-- First-occurrence deduplication; `collections.Counter` iterates its keys in
first-insertion order (each word at its first position, later duplicates
removed). -/
def uniqueWords : List String → List String
  | [] => []
  | w :: ws => w :: (uniqueWords ws).filter (fun x => x ≠ w)

/-- Embedding of `Counter(words).items()`: each distinct word, in
first-occurrence order, with its number of occurrences. -/
def counterItems (ws : List String) : List (String × Nat) :=
  (uniqueWords ws).map (fun w => (w, ws.count w))

/-- Row of the `documents` table (`app/models.py`). -/
structure Document where
  id : Nat
  name : String
  content : String
  word_count : Nat
deriving DecidableEq, Repr

/-- Row of the `inverted_index` table (`app/models.py`). -/
structure IndexEntry where
  word : String
  doc_id : Nat
  count : Nat
deriving DecidableEq, Repr

/-- Committed state of the relational store; `nextId` models the
auto-increment id sequence of `documents`. -/
structure Store where
  docs : List Document
  index : List IndexEntry
  nextId : Nat
deriving DecidableEq, Repr

def emptyStore : Store := ⟨[], [], 1⟩

/-- One scored search result (`app/schemas.py`, `SearchResult`).  The SQL
`double precision` score is idealised as a real number. -/
structure SearchResult where
  name : String
  score : ℝ

/-- The Redis result cache, as a partial map from cache key to the cached
(deserialised) result list. -/
def Cache : Type := String → Option (List SearchResult)

def emptyCache : Cache := fun _ => none

def cacheSet (c : Cache) (k : String) (v : List SearchResult) : Cache :=
  fun k' => if k' = k then some v else c k'

/-- Cache/store accesses and `stderr` error logs, as recorded in traces. -/
inductive Op where
  | cacheGet (key : String)
  | cacheSetOp (key : String)
  | cacheFlush
  | storeCommit
  | storeQuery
  | logSkipEmpty
  | logAddError
  | logFlushFailed
  | logCacheReadFailed
  | logCacheWriteFailed
  | logDbError
deriving DecidableEq, Repr

/-- Outcome of `add_document`: the Python method returns `None` for
unprocessable content, returns the persisted document on success, and raises
on persistence failure. -/
inductive AddResult where
  | notIndexed
  | added (d : Document)
  | errored
deriving DecidableEq, Repr

/-- Environment failure schedule for one `add_document` call. -/
structure AddSched where
  commitDocFails : Bool
  commitIndexFails : Bool
  flushFails : Bool
deriving DecidableEq, Repr

structure AddOut where
  res : AddResult
  store : Store
  cache : Cache
  ops : List Op

/-- The index rows built for a fresh document
(`app/search_engine.py`, lines 76–79). -/
def indexEntriesOf (words : List String) (docId : Nat) : List IndexEntry :=
  (counterItems words).map (fun wc => ⟨wc.1, docId, wc.2⟩)

/-- Embedding of `SearchEngine.add_document`
(`app/search_engine.py`, lines 53–101).

The method tokenizes the content and returns `None` ("not indexed") when no
words remain.  Otherwise it adds the new `Document` and **commits**; the
commit raises (→ rollback of the pending row only, result `errored`) when the
environment fails or the unique constraint on `name` is violated.  It then
adds all `InvertedIndex` rows and commits a **second** time; if that commit
raises, the `rollback` in the `except` block discards only the uncommitted
index rows — the document, committed by the first commit, stays.  Finally the
whole Redis database is flushed; a flush failure is logged and swallowed. -/
def add_document (st : Store) (cache : Cache) (name content : String)
    (sc : AddSched) : AddOut :=
  let words := split_to_words content
  if words.isEmpty then
    ⟨.notIndexed, st, cache, [.logSkipEmpty]⟩
  else
    if sc.commitDocFails || st.docs.any (fun d => d.name == name) then
      ⟨.errored, st, cache, [.logAddError]⟩
    else
      let d : Document := ⟨st.nextId, name, content, words.length⟩
      let st1 : Store := ⟨st.docs ++ [d], st.index, st.nextId + 1⟩
      let entries := indexEntriesOf words d.id
      if entries.isEmpty then
        -- `if index_entries:` guard: nothing to insert, no second commit
        if sc.flushFails then
          ⟨.added d, st1, cache, [.storeCommit, .logFlushFailed]⟩
        else
          ⟨.added d, st1, emptyCache, [.storeCommit, .cacheFlush]⟩
      else
        if sc.commitIndexFails then
          ⟨.errored, st1, cache, [.storeCommit, .logAddError]⟩
        else
          let st2 : Store := ⟨st1.docs, st1.index ++ entries, st1.nextId⟩
          if sc.flushFails then
            ⟨.added d, st2, cache, [.storeCommit, .storeCommit, .logFlushFailed]⟩
          else
            ⟨.added d, st2, emptyCache, [.storeCommit, .storeCommit, .cacheFlush]⟩

/-! ## Scoring (`SearchEngine.search`, DB part) -/

/-- Document frequency of a word: number of `inverted_index` rows holding it
(the composite primary key makes this the number of distinct documents
containing the word), as computed by the `df_subq` subquery. -/
def df (st : Store) (w : String) : Nat :=
  (st.index.filter (fun e => e.word == w)).length

/-- Smoothed inverse document frequency, `func.log((N + 1) / (df + 1))`.
On PostgreSQL (the repository's database; see `alembic/env.py`), `log` is the
base-10 logarithm. -/
noncomputable def idf (N dfw : Nat) : ℝ :=
  Real.logb 10 (((N : ℝ) + 1) / ((dfw : ℝ) + 1))

/-- The index rows of document `d` that match the query word set: the rows
produced for `d` by the join of `inverted_index` with `df_subq` restricted to
`InvertedIndex.word.in_(query_words)`. -/
def entriesFor (st : Store) (qws : List String) (d : Document) : List IndexEntry :=
  st.index.filter (fun e => e.doc_id == d.id && qws.contains e.word)

/-- Documents producing at least one row in the search join (the `GROUP BY`
groups). -/
def matchingDocs (st : Store) (qws : List String) : List Document :=
  st.docs.filter (fun d => !(entriesFor st qws d).isEmpty)

/-- Term frequency of one index row:
`count / greatest(word_count, 1)` as `double precision`. -/
noncomputable def tf (d : Document) (e : IndexEntry) : ℝ :=
  (e.count : ℝ) / ((max d.word_count 1 : Nat) : ℝ)

/-- The aggregated score of one `GROUP BY` group:
`sum(tf * log((N + 1) / (df + 1)))` over the matching rows of `d`. -/
noncomputable def docScore (st : Store) (qws : List String) (d : Document) : ℝ :=
  ((entriesFor st qws d).map (fun e => tf d e * idf st.docs.length (df st e.word))).sum

/-- One row of the search SQL result set. -/
structure Row where
  doc_id : Nat
  doc_name : String
  total_score : ℝ

/-- The (unordered) rows of the search query, one per matching document. -/
noncomputable def scoredRows (st : Store) (qws : List String) : List Row :=
  (matchingDocs st qws).map (fun d => ⟨d.id, d.name, docScore st qws d⟩)

/-- Row ordering used by `ORDER BY score DESC`: later rows never have a larger
score. -/
def scoreGE (a b : Row) : Prop := b.total_score ≤ a.total_score

noncomputable instance : DecidableRel scoreGE := fun a b =>
  Real.decidableLE b.total_score a.total_score

instance : IsTotal Row scoreGE := ⟨fun a b => le_total b.total_score a.total_score⟩

instance : IsTrans Row scoreGE := ⟨fun _ _ _ h h' => le_trans h' h⟩

/-- Python-side row post-processing (`app/search_engine.py`, lines 194–208):
keep rows whose score is non-negative (a `NULL` score cannot arise here: every
group aggregates at least one row) and repackage as `SearchResult`s. -/
noncomputable def postProcess (rows : List Row) : List SearchResult :=
  (rows.filter (fun r => decide (0 ≤ r.total_score))).map
    (fun r => ⟨r.doc_name, r.total_score⟩)

/-- One admissible execution of the scoring pipeline: rows sorted by
descending score (the insertion sort fixes one admissible `ORDER BY` tie
order), truncated by `LIMIT 10`, then post-processed. -/
noncomputable def searchCompute (st : Store) (qws : List String) : List SearchResult :=
  postProcess (((scoredRows st qws).insertionSort scoreGE).take 10)

/-! ## The search coordinator (`SearchEngine.search`) -/

/-- Environment failure schedule for one `search` call. -/
structure SearchSched where
  cacheGetFails : Bool
  dbFails : Bool
  cacheSetFails : Bool
deriving DecidableEq, Repr

structure SearchOut where
  results : List SearchResult
  cache : Cache
  ops : List Op

/-- Database-and-cache-write phase of `search` (after the cache lookup,
`app/search_engine.py`, lines 131–244).  A database failure anywhere in the
`try` block is caught, logged to `stderr`, and degraded to an empty result
list.  The result list is cached only when it is non-empty; a cache write
failure is logged and swallowed. -/
noncomputable def searchDbPhase (st : Store) (cache : Cache) (ql key : String)
    (sc : SearchSched) (ops0 : List Op) : SearchOut :=
  let qws := split_to_words ql
  if qws.isEmpty then
    ⟨[], cache, ops0⟩
  else if sc.dbFails then
    ⟨[], cache, ops0 ++ [.storeQuery, .logDbError]⟩
  else if st.docs.length = 0 then
    ⟨[], cache, ops0 ++ [.storeQuery]⟩
  else
    let results := searchCompute st qws
    if results.isEmpty then
      ⟨results, cache, ops0 ++ [.storeQuery, .storeQuery]⟩
    else if sc.cacheSetFails then
      ⟨results, cache, ops0 ++ [.storeQuery, .storeQuery, .cacheSetOp key,
        .logCacheWriteFailed]⟩
    else
      ⟨results, cacheSet cache key results,
        ops0 ++ [.storeQuery, .storeQuery, .cacheSetOp key]⟩

/-- Embedding of `SearchEngine.search` (`app/search_engine.py`,
lines 103–244).  A blank query returns immediately, before any cache or store
access.  Otherwise the cache is consulted: a hit returns the cached list; a
read failure is logged and treated as a miss.  The method never raises: every
`except` path returns a list. -/
noncomputable def search (st : Store) (cache : Cache) (q : String)
    (sc : SearchSched) : SearchOut :=
  let ql := pyStrip (pyLower q)
  if ql = "" then
    ⟨[], cache, []⟩
  else
    let key := "search:" ++ ql
    if sc.cacheGetFails then
      searchDbPhase st cache ql key sc [.cacheGet key, .logCacheReadFailed]
    else
      match cache key with
      | some results => ⟨results, cache, [.cacheGet key]⟩
      | none => searchDbPhase st cache ql key sc [.cacheGet key]

/-! ## Counter lemmas -/

theorem mem_uniqueWords {w : String} :
    ∀ {ws : List String}, w ∈ uniqueWords ws ↔ w ∈ ws := by
  intro ws
  induction ws with
  | nil => simp [uniqueWords]
  | cons w' ws ih =>
    simp only [uniqueWords, List.mem_cons, List.mem_filter, ih, decide_eq_true_eq]
    by_cases hw : w = w'
    · simp [hw]
    · simp [hw]

theorem nodup_uniqueWords : ∀ {ws : List String}, (uniqueWords ws).Nodup := by
  intro ws
  induction ws with
  | nil => simp [uniqueWords]
  | cons w' ws ih =>
    rw [uniqueWords]
    refine List.Nodup.cons ?_ (List.Nodup.filter _ ih)
    intro hmem
    rw [List.mem_filter] at hmem
    simp at hmem

theorem sum_map_filter_ne (f : String → Nat) (w : String) :
    ∀ (l : List String), l.Nodup →
      ((l.filter (fun x => x ≠ w)).map f).sum + (if w ∈ l then f w else 0) =
        (l.map f).sum := by
  intro l
  induction l with
  | nil => intro _; simp
  | cons x l' ih =>
    intro hl
    have H := ih (List.Nodup.of_cons hl)
    by_cases hx : x = w
    · subst hx
      have hxl : x ∉ l' := (List.nodup_cons.mp hl).1
      rw [List.filter_cons_of_neg (by simp)]
      have hfilter : l'.filter (fun y => y ≠ x) = l' := by
        rw [List.filter_eq_self]
        intro a ha
        simp only [decide_eq_true_eq]
        intro hax
        exact hxl (hax ▸ ha)
      rw [hfilter] at H ⊢
      simp only [List.mem_cons, true_or, if_true, List.map_cons, List.sum_cons]
      have : (if x ∈ l' then f x else 0) = 0 := by simp [hxl]
      omega
    · rw [List.filter_cons_of_pos (by simp [hx])]
      simp only [List.map_cons, List.sum_cons]
      have hmem : (w ∈ x :: l') ↔ (w ∈ l') := by
        simp only [List.mem_cons]
        constructor
        · rintro (rfl | h)
          · exact absurd rfl hx
          · exact h
        · exact Or.inr
      rw [if_congr hmem rfl rfl]
      omega

theorem sum_counterItems (ws : List String) :
    ((counterItems ws).map (fun wc => wc.2)).sum = ws.length := by
  induction ws with
  | nil => simp [counterItems, uniqueWords]
  | cons w ws ih =>
    rw [counterItems, uniqueWords]
    simp only [List.map_cons, List.map_map, List.sum_cons]
    have hcount : ∀ u ∈ (uniqueWords ws).filter (fun x => x ≠ w),
        ((fun wc : String × Nat => wc.2) ∘ fun u => (u, (w :: ws).count u)) u
          = ws.count u := by
      intro u hu
      have hu' : u ≠ w := by
        rw [List.mem_filter] at hu
        simpa using hu.2
      simp [Function.comp, List.count_cons_of_ne hu']
    rw [List.map_congr_left hcount]
    have hsplit := sum_map_filter_ne (fun u => ws.count u) w (uniqueWords ws)
      nodup_uniqueWords
    have hite : (if w ∈ uniqueWords ws then ws.count w else 0) = ws.count w := by
      by_cases hmem : w ∈ ws
      · rw [if_pos (mem_uniqueWords.mpr hmem)]
      · rw [if_neg (fun h => hmem (mem_uniqueWords.mp h))]
        rw [eq_comm, List.count_eq_zero]
        exact hmem
    rw [hite] at hsplit
    have hih : ((uniqueWords ws).map (fun u => ws.count u)).sum = ws.length := by
      rw [counterItems, List.map_map] at ih
      exact ih
    rw [hih] at hsplit
    rw [List.count_cons_self, List.length_cons]
    omega

/-! ## Tokenizer lemmas -/

/-- Separator predicate of the tokenizer: anything that is not a word
character splits tokens. -/
def isSep (c : Char) : Bool := !isWordChar c

@[simp] theorem wordRuns_nil : wordRuns [] = [] := rfl

theorem runsAux_acc :
    ∀ (cs acc : List Char), acc ≠ [] →
      runsAux acc cs =
        (acc.reverse ++ cs.takeWhile isWordChar) ::
          runsAux [] (cs.dropWhile isWordChar) := by
  intro cs
  induction cs with
  | nil =>
    intro acc hacc
    simp [runsAux, hacc]
  | cons c cs' ih =>
    intro acc hacc
    by_cases h : isWordChar c
    · rw [runsAux, if_pos h, ih (c :: acc) (by simp),
        List.takeWhile_cons_of_pos h, List.dropWhile_cons_of_pos h]
      simp
    · have h' : isWordChar c = false := by simpa using h
      rw [runsAux, if_neg (by simp [h']),
        if_neg (by simpa using hacc),
        List.takeWhile_cons_of_neg (by simp [h']),
        List.dropWhile_cons_of_neg (by simp [h'])]
      have hstep : runsAux [] (c :: cs') = runsAux [] cs' := by
        rw [runsAux, if_neg (by simp [h'])]
        simp
      rw [hstep]
      simp

theorem wordRuns_cons_pos {c : Char} (cs : List Char) (h : isWordChar c = true) :
    wordRuns (c :: cs) =
      (c :: cs.takeWhile isWordChar) :: wordRuns (cs.dropWhile isWordChar) := by
  rw [wordRuns, runsAux, if_pos h, runsAux_acc cs [c] (by simp)]
  rfl

theorem wordRuns_cons_neg {c : Char} (cs : List Char) (h : isWordChar c = false) :
    wordRuns (c :: cs) = wordRuns cs := by
  rw [wordRuns, runsAux, if_neg (by simp [h])]
  simp [wordRuns]

theorem wordRuns_eq_aux :
    ∀ (n : Nat) (cs : List Char), cs.length ≤ n →
      ((cs.splitOnP isSep).filter (fun l => !l.isEmpty)) = wordRuns cs := by
  intro n
  induction n with
  | zero =>
    intro cs hcs
    have h0 : cs = [] := List.eq_nil_of_length_eq_zero (Nat.le_zero.mp hcs)
    subst h0
    simp [List.splitOnP_nil, wordRuns, runsAux]
  | succ n ih =>
    intro cs hcs
    match cs with
    | [] => simp [List.splitOnP_nil, wordRuns, runsAux]
    | c :: cs' =>
      have hcs' : cs'.length ≤ n := Nat.le_of_succ_le_succ hcs
      by_cases h : isWordChar c
      · -- `c` starts a token covering the maximal word-character run
        have hsplit := List.takeWhile_append_dropWhile (p := isWordChar) (l := cs')
        rcases hd : cs'.dropWhile isWordChar with _ | ⟨s, d'⟩
        · -- no separator follows: the whole rest is one token
          have hall : ∀ x ∈ c :: cs', ¬ isSep x := by
            intro x hx
            rcases List.mem_cons.mp hx with rfl | hx'
            · simp [isSep, h]
            · have hx'' : x ∈ cs'.takeWhile isWordChar := by
                rw [hd, List.append_nil] at hsplit
                rw [hsplit]; exact hx'
              have := List.mem_takeWhile_imp hx''
              simp [isSep, this]
          rw [List.splitOnP_eq_single isSep (c :: cs') hall]
          rw [wordRuns_cons_pos cs' h, hd]
          have ht : cs'.takeWhile isWordChar = cs' := by
            rw [hd, List.append_nil] at hsplit; exact hsplit
          rw [ht]
          simp
        · -- a separator `s` ends the token
          have hs : isWordChar s = false := by
            have hne : cs'.dropWhile isWordChar ≠ [] := by rw [hd]; simp
            have h? := List.head?_dropWhile_not isWordChar cs'
            rw [hd] at h?
            simpa using h?
          have hdecomp : c :: cs' = (c :: cs'.takeWhile isWordChar) ++ s :: d' := by
            rw [List.cons_append]
            congr 1
            rw [← hd, hsplit]
          have hall : ∀ x ∈ c :: cs'.takeWhile isWordChar, ¬ isSep x := by
            intro x hx
            rcases List.mem_cons.mp hx with rfl | hx'
            · simp [isSep, h]
            · have := List.mem_takeWhile_imp hx'
              simp [isSep, this]
          rw [hdecomp, List.splitOnP_first isSep (c :: cs'.takeWhile isWordChar) hall s (by simp [isSep, hs]) d']
          have hd' : d'.length ≤ n := by
            have h1 : (cs'.dropWhile isWordChar).length ≤ cs'.length :=
              (List.dropWhile_sublist isWordChar).length_le
            rw [hd] at h1
            simp only [List.length_cons] at h1
            omega
          rw [List.filter_cons_of_pos (by simp)]
          rw [ih d' hd']
          rw [← hdecomp, wordRuns_cons_pos cs' h, hd]
          congr 1
          rw [wordRuns_cons_neg d' hs]
      · -- `c` is a separator and is skipped
        have : (c :: cs').splitOnP isSep = [] :: cs'.splitOnP isSep := by
          rw [List.splitOnP_cons, if_pos (by simp [isSep, h])]
        rw [this, List.filter_cons_of_neg (by simp), ih cs' hcs']
        rw [wordRuns_cons_neg cs' (by simpa using h)]

/-- The scan of `re.findall(r"\b\w+\b", ·)` returns exactly the nonempty
chunks obtained by splitting at every separator character: the maximal runs
of word characters, in order. -/
theorem wordRuns_eq_splitOnP (cs : List Char) :
    wordRuns cs = ((cs.splitOnP isSep).filter (fun l => !l.isEmpty)) :=
  (wordRuns_eq_aux cs.length cs (Nat.le_refl _)).symm

/-! ## Lemmas about `add_document` -/

theorem uniqueWords_ne_nil {w : String} {ws : List String} :
    uniqueWords (w :: ws) ≠ [] := by
  rw [uniqueWords]
  simp

theorem indexEntriesOf_isEmpty_eq_false {ws : List String} {docId : Nat}
    (h : ws ≠ []) : (indexEntriesOf ws docId).isEmpty = false := by
  match ws with
  | [] => exact absurd rfl h
  | w :: ws' =>
    rw [indexEntriesOf, counterItems, uniqueWords]
    simp

theorem docs_any_eq_false {st : Store} {name : String}
    (h : ∀ d ∈ st.docs, d.name ≠ name) :
    st.docs.any (fun d => d.name == name) = false := by
  rw [List.any_eq_false]
  intro d hd
  simpa using h d hd

/-- Success-path evaluation of `add_document`: with a fresh name and no
commit failure, the document and its index rows are committed and the cache
flush is attempted. -/
theorem add_document_success (st : Store) (cache : Cache) (name content : String)
    (sc : AddSched) (hw : split_to_words content ≠ [])
    (hdup : ∀ d ∈ st.docs, d.name ≠ name)
    (h1 : sc.commitDocFails = false) (h2 : sc.commitIndexFails = false) :
    add_document st cache name content sc =
      ⟨.added ⟨st.nextId, name, content, (split_to_words content).length⟩,
       ⟨st.docs ++ [⟨st.nextId, name, content, (split_to_words content).length⟩],
        st.index ++ indexEntriesOf (split_to_words content) st.nextId,
        st.nextId + 1⟩,
       if sc.flushFails then cache else emptyCache,
       if sc.flushFails then [.storeCommit, .storeCommit, .logFlushFailed]
       else [.storeCommit, .storeCommit, .cacheFlush]⟩ := by
  have hw' : (split_to_words content).isEmpty = false := by
    rw [List.isEmpty_eq_false]
    exact hw
  have hent : (indexEntriesOf (split_to_words content) st.nextId).isEmpty = false :=
    indexEntriesOf_isEmpty_eq_false hw
  rw [add_document]
  simp only [hw', h1, h2, docs_any_eq_false hdup, hent, Bool.or_self, Bool.false_eq_true,
    if_false]
  by_cases hf : sc.flushFails = true <;> simp [hf]

/-- Failure-path evaluation of `add_document`: the first commit succeeds, the
index-row commit raises.  The `rollback` discards only the pending index
rows; the document row was already made durable by the first commit. -/
theorem add_document_index_commit_fails (st : Store) (cache : Cache)
    (name content : String) (sc : AddSched) (hw : split_to_words content ≠ [])
    (hdup : ∀ d ∈ st.docs, d.name ≠ name)
    (h1 : sc.commitDocFails = false) (h2 : sc.commitIndexFails = true) :
    add_document st cache name content sc =
      ⟨.errored,
       ⟨st.docs ++ [⟨st.nextId, name, content, (split_to_words content).length⟩],
        st.index, st.nextId + 1⟩,
       cache, [.storeCommit, .logAddError]⟩ := by
  have hw' : (split_to_words content).isEmpty = false := by
    rw [List.isEmpty_eq_false]
    exact hw
  have hent : (indexEntriesOf (split_to_words content) st.nextId).isEmpty = false :=
    indexEntriesOf_isEmpty_eq_false hw
  rw [add_document]
  simp [hw', h1, h2, docs_any_eq_false hdup, hent]

theorem mem_indexEntriesOf {ws : List String} {docId : Nat} {e : IndexEntry}
    (he : e ∈ indexEntriesOf ws docId) :
    e.doc_id = docId ∧ e.count = ws.count e.word := by
  simp only [indexEntriesOf, counterItems, List.map_map, List.mem_map] at he
  obtain ⟨w, hw, rfl⟩ := he
  simp

theorem entry_mem_indexEntriesOf {ws : List String} {docId : Nat} {w : String}
    (hw : w ∈ ws) :
    (⟨w, docId, ws.count w⟩ : IndexEntry) ∈ indexEntriesOf ws docId := by
  simp only [indexEntriesOf, counterItems, List.map_map, List.mem_map]
  exact ⟨w, mem_uniqueWords.mpr hw, rfl⟩

theorem sum_indexEntriesOf (ws : List String) (docId : Nat) :
    ((indexEntriesOf ws docId).map (fun e => e.count)).sum = ws.length := by
  rw [indexEntriesOf, List.map_map]
  exact sum_counterItems ws

/-! ## Claims about `add_document` -/

/-- C1, counterexample to the claim as stated: ingesting the non-empty
content `"cat"` with the index-row commit failing leaves the store holding
the document `"a"` with **zero** index rows — the first commit made the
document durable, and the subsequent rollback cannot undo it. -/
theorem c1_claim_counterexample :
    (add_document emptyStore emptyCache "a" "cat" ⟨false, true, false⟩).res =
      .errored ∧
    (add_document emptyStore emptyCache "a" "cat" ⟨false, true, false⟩).store.docs =
      [⟨1, "a", "cat", 1⟩] ∧
    (add_document emptyStore emptyCache "a" "cat" ⟨false, true, false⟩).store.index =
      [] ∧
    split_to_words "cat" ≠ [] := by
  refine ⟨by decide, by decide, by decide, by decide⟩

/-- C1 (amended): `add_document` persists the Document row with its own
commit before inserting the IndexEntry rows; if the IndexEntry insertion
subsequently fails, the error propagates (`errored`) and the session is
rolled back, but the already-committed Document row survives, so the store
can contain a Document with zero index entries for non-empty content. -/
theorem c1_document_survives_index_failure (st : Store) (cache : Cache)
    (name content : String) (sc : AddSched) (hw : split_to_words content ≠ [])
    (hdup : ∀ d ∈ st.docs, d.name ≠ name) (h1 : sc.commitDocFails = false)
    (h2 : sc.commitIndexFails = true) :
    (add_document st cache name content sc).res = .errored ∧
    (add_document st cache name content sc).store.docs =
      st.docs ++ [⟨st.nextId, name, content, (split_to_words content).length⟩] ∧
    (add_document st cache name content sc).store.index = st.index := by
  rw [add_document_index_commit_fails st cache name content sc hw hdup h1 h2]
  exact ⟨rfl, rfl, rfl⟩

theorem c1_document_survives_index_failure_witness :
    (add_document emptyStore emptyCache "a" "cat" ⟨false, true, false⟩).res =
      .errored ∧
    (add_document emptyStore emptyCache "a" "cat" ⟨false, true, false⟩).store.docs =
      emptyStore.docs ++
        [⟨emptyStore.nextId, "a", "cat", (split_to_words "cat").length⟩] ∧
    (add_document emptyStore emptyCache "a" "cat" ⟨false, true, false⟩).store.index =
      emptyStore.index :=
  c1_document_survives_index_failure emptyStore emptyCache "a" "cat"
    ⟨false, true, false⟩ (by decide) (by simp [emptyStore]) rfl rfl

/-- C4: on every successful ingest, the created IndexEntry rows carry the
new document's id, each row's count is the word's occurrence count in the
tokenized content, every tokenized word has its row, and the counts sum to
the document's recorded `word_count` (the total token count). -/
theorem c4_index_consistency (st : Store) (cache : Cache) (name content : String)
    (sc : AddSched) (hw : split_to_words content ≠ [])
    (hdup : ∀ d ∈ st.docs, d.name ≠ name)
    (h1 : sc.commitDocFails = false) (h2 : sc.commitIndexFails = false) :
    (add_document st cache name content sc).res =
      .added ⟨st.nextId, name, content, (split_to_words content).length⟩ ∧
    (add_document st cache name content sc).store.index =
      st.index ++ indexEntriesOf (split_to_words content) st.nextId ∧
    ((indexEntriesOf (split_to_words content) st.nextId).map (fun e => e.count)).sum =
      (split_to_words content).length ∧
    (∀ e ∈ indexEntriesOf (split_to_words content) st.nextId,
      e.doc_id = st.nextId ∧ e.count = (split_to_words content).count e.word) ∧
    (∀ w ∈ split_to_words content,
      (⟨w, st.nextId, (split_to_words content).count w⟩ : IndexEntry) ∈
        indexEntriesOf (split_to_words content) st.nextId) := by
  rw [add_document_success st cache name content sc hw hdup h1 h2]
  exact ⟨rfl, rfl, sum_indexEntriesOf _ _,
    fun e he => mem_indexEntriesOf he, fun w hw' => entry_mem_indexEntriesOf hw'⟩

theorem c4_index_consistency_witness :
    split_to_words "the cat sat on the mat" ≠ [] ∧
    ((indexEntriesOf (split_to_words "the cat sat on the mat") 1).map
      (fun e => e.count)).sum = (split_to_words "the cat sat on the mat").length ∧
    (split_to_words "the cat sat on the mat").length = 6 := by
  refine ⟨by decide, ?_, by decide⟩
  have h := c4_index_consistency emptyStore emptyCache "a" "the cat sat on the mat"
    ⟨false, false, false⟩ (by decide) (by simp [emptyStore]) rfl rfl
  exact h.2.2.1

/-- C5: content whose tokenization is empty makes `add_document` a no-op:
it returns the distinguished `notIndexed` outcome (not an error), leaves the
store and cache untouched, and hence never creates a Document — if no
document of the given name existed before, none exists afterwards. -/
theorem c5_empty_content_no_op (st : Store) (cache : Cache) (name content : String)
    (sc : AddSched) (hw : split_to_words content = []) :
    add_document st cache name content sc =
      ⟨.notIndexed, st, cache, [.logSkipEmpty]⟩ ∧
    ((∀ d ∈ st.docs, d.name ≠ name) →
      ∀ d ∈ (add_document st cache name content sc).store.docs, d.name ≠ name) := by
  have heq : add_document st cache name content sc =
      ⟨.notIndexed, st, cache, [.logSkipEmpty]⟩ := by
    rw [add_document]
    simp [hw]
  exact ⟨heq, fun h d hd => by rw [heq] at hd; exact h d hd⟩

theorem c5_empty_content_no_op_witness :
    add_document emptyStore emptyCache "x" "   " ⟨false, false, false⟩ =
      ⟨.notIndexed, emptyStore, emptyCache, [.logSkipEmpty]⟩ ∧
    (∀ d ∈ (add_document emptyStore emptyCache "x" "   "
      ⟨false, false, false⟩).store.docs, d.name ≠ "x") := by
  have h := c5_empty_content_no_op emptyStore emptyCache "x" "   "
    ⟨false, false, false⟩ (by decide)
  exact ⟨h.1, h.2 (by simp [emptyStore])⟩

/-- C6: every successful ingest attempts a whole-cache flush; when the flush
succeeds the cache is completely emptied, and when it fails the failure is
logged and swallowed — the ingest still returns the persisted document. -/
theorem c6_flush_best_effort (st : Store) (cache : Cache) (name content : String)
    (sc : AddSched) (hw : split_to_words content ≠ [])
    (hdup : ∀ d ∈ st.docs, d.name ≠ name)
    (h1 : sc.commitDocFails = false) (h2 : sc.commitIndexFails = false) :
    (add_document st cache name content sc).res =
      .added ⟨st.nextId, name, content, (split_to_words content).length⟩ ∧
    (sc.flushFails = false → (add_document st cache name content sc).cache = emptyCache) ∧
    (sc.flushFails = true →
      (add_document st cache name content sc).cache = cache ∧
      Op.logFlushFailed ∈ (add_document st cache name content sc).ops) := by
  rw [add_document_success st cache name content sc hw hdup h1 h2]
  exact ⟨rfl, fun hf => by simp [hf], fun hf => by simp [hf]⟩

theorem c6_flush_best_effort_witness :
    (add_document emptyStore emptyCache "a" "cat" ⟨false, false, true⟩).res =
      .added ⟨emptyStore.nextId, "a", "cat", (split_to_words "cat").length⟩ ∧
    (add_document emptyStore emptyCache "a" "cat" ⟨false, false, true⟩).cache =
      emptyCache ∧
    Op.logFlushFailed ∈
      (add_document emptyStore emptyCache "a" "cat" ⟨false, false, true⟩).ops := by
  have h := c6_flush_best_effort emptyStore emptyCache "a" "cat"
    ⟨false, false, true⟩ (by decide) (by simp [emptyStore]) rfl rfl
  exact ⟨h.1, (h.2.2 rfl).1, (h.2.2 rfl).2⟩

/-! ## Claims about the tokenizer -/

/-- The spec's tokenizer example input, `"Hello, world? How's it going?"`
(the apostrophe is character 39). -/
def c8Example : String :=
  String.mk ['H', 'e', 'l', 'l', 'o', ',', ' ', 'w', 'o', 'r', 'l', 'd', '?',
    ' ', 'H', 'o', 'w', Char.ofNat 39, 's', ' ', 'i', 't', ' ', 'g', 'o',
    'i', 'n', 'g', '?']

/-- C8: `split_to_words` lowercases its input and returns exactly the maximal
runs of word characters (alphanumeric or underscore), in order — equivalently
the nonempty chunks left after splitting at every separator character; empty
input yields the empty sequence, and the spec's example tokenizes to
`["hello", "world", "how", "s", "it", "going"]`.  (A `None` input, handled by
the same `if not text` guard in Python, has no counterpart in the `String`
model.) -/
theorem c8_tokenizer_spec :
    (∀ s : String,
      split_to_words s =
        (((s.toList.map Char.toLower).splitOnP isSep).filter
          (fun l => !l.isEmpty)).map String.mk) ∧
    split_to_words "" = [] ∧
    split_to_words c8Example = ["hello", "world", "how", "s", "it", "going"] := by
  refine ⟨fun s => ?_, rfl, by decide⟩
  rw [split_to_words, wordRuns_eq_splitOnP]

/-! ## Claims about the search coordinator -/

/-- C9: a query that is blank after normalization returns the empty result
list immediately: the cache and the store are untouched and no cache or
store operation is performed (the operation trace is empty). -/
theorem c9_blank_query_no_ops (st : Store) (cache : Cache) (q : String)
    (sc : SearchSched) (hq : pyStrip (pyLower q) = "") :
    search st cache q sc = ⟨[], cache, []⟩ := by
  rw [search]
  simp [hq]

theorem c9_blank_query_no_ops_witness :
    search emptyStore emptyCache "   " ⟨false, false, false⟩ =
      ⟨[], emptyCache, []⟩ :=
  c9_blank_query_no_ops emptyStore emptyCache "   " ⟨false, false, false⟩
    (by decide)

/-- Case analysis of the database phase of `search`: either the cache is left
unchanged, or the computed non-empty result list is written under the cache
key. -/
theorem searchDbPhase_cache_cases (st : Store) (cache : Cache) (ql key : String)
    (sc : SearchSched) (ops0 : List Op) :
    (searchDbPhase st cache ql key sc ops0).cache = cache ∨
    ((searchDbPhase st cache ql key sc ops0).results ≠ [] ∧
      (searchDbPhase st cache ql key sc ops0).cache =
        cacheSet cache key (searchDbPhase st cache ql key sc ops0).results) := by
  rw [searchDbPhase]
  simp only []
  split_ifs with h1 h2 h3 h4 h5
  · exact Or.inl rfl
  · exact Or.inl rfl
  · exact Or.inl rfl
  · exact Or.inl rfl
  · exact Or.inl rfl
  · refine Or.inr ⟨?_, rfl⟩
    simpa [List.isEmpty_eq_false] using h4

/-- The cache is unchanged whenever the database phase computes an empty
result list. -/
theorem searchDbPhase_results_empty_cache (st : Store) (cache : Cache)
    (ql key : String) (sc : SearchSched) (ops0 : List Op)
    (h : (searchDbPhase st cache ql key sc ops0).results = []) :
    (searchDbPhase st cache ql key sc ops0).cache = cache := by
  rcases searchDbPhase_cache_cases st cache ql key sc ops0 with hc | ⟨hne, -⟩
  · exact hc
  · exact absurd h hne

/-- A cache write performed by the database phase preserves the invariant
that the cache holds no empty result list. -/
theorem searchDbPhase_preserves_no_empty (st : Store) (cache : Cache)
    (ql key : String) (sc : SearchSched) (ops0 : List Op)
    (hinv : ∀ k v, cache k = some v → v ≠ []) :
    ∀ k v, (searchDbPhase st cache ql key sc ops0).cache k = some v → v ≠ [] := by
  intro k v hk
  rcases searchDbPhase_cache_cases st cache ql key sc ops0 with hc | ⟨hne, hc⟩
  · rw [hc] at hk
    exact hinv k v hk
  · rw [hc, cacheSet] at hk
    by_cases hkk : k = key
    · rw [if_pos hkk] at hk
      cases hk
      exact hne
    · rw [if_neg hkk] at hk
      exact hinv k v hk

/-- C10: `search` writes to the cache only when the computed result list is
non-empty.  Whenever the returned result list is empty the cache is exactly
as before (so empty results are recomputed on every call), and `search`
preserves the invariant that no cached entry is an empty result list. -/
theorem c10_no_empty_cache_writes (st : Store) (cache : Cache) (q : String)
    (sc : SearchSched) :
    ((search st cache q sc).results = [] → (search st cache q sc).cache = cache) ∧
    ((∀ k v, cache k = some v → v ≠ []) →
      ∀ k v, (search st cache q sc).cache k = some v → v ≠ []) := by
  rw [search]
  by_cases hq : pyStrip (pyLower q) = ""
  · simp only [hq, if_pos rfl]
    exact ⟨fun _ => rfl, fun h => h⟩
  · simp only [if_neg hq]
    by_cases hget : sc.cacheGetFails = true
    · rw [if_pos hget]
      exact ⟨searchDbPhase_results_empty_cache _ _ _ _ _ _,
        searchDbPhase_preserves_no_empty _ _ _ _ _ _⟩
    · rw [if_neg hget]
      rcases hcache : cache ("search:" ++ pyStrip (pyLower q)) with _ | v0
      · simp only [hcache]
        exact ⟨searchDbPhase_results_empty_cache _ _ _ _ _ _,
          searchDbPhase_preserves_no_empty _ _ _ _ _ _⟩
      · exact ⟨fun _ => rfl, fun h => h⟩

/-- Evaluation of a cache-missing, failure-free `search` against the empty
store: the count query reports zero documents and the empty list is
returned without a cache write. -/
theorem search_empty_store (cache : Cache) (q : String) (sc : SearchSched)
    (hq : pyStrip (pyLower q) ≠ "")
    (hmiss : cache ("search:" ++ pyStrip (pyLower q)) = none)
    (hget : sc.cacheGetFails = false) (hdb : sc.dbFails = false)
    (hw : split_to_words (pyStrip (pyLower q)) ≠ []) :
    search emptyStore cache q sc =
      ⟨[], cache, [.cacheGet ("search:" ++ pyStrip (pyLower q)), .storeQuery]⟩ := by
  have hwe : (split_to_words (pyStrip (pyLower q))).isEmpty = false := by
    rw [List.isEmpty_eq_false]
    exact hw
  rw [search]
  rw [if_neg hq, hget]
  simp only [Bool.false_eq_true, if_false, hmiss]
  rw [searchDbPhase]
  simp only [hwe, Bool.false_eq_true, if_false, hdb]
  simp [emptyStore]

theorem c10_no_empty_cache_writes_witness :
    (search emptyStore emptyCache "x" ⟨false, false, false⟩).cache = emptyCache ∧
    (∀ k v, (search emptyStore emptyCache "x" ⟨false, false, false⟩).cache k =
      some v → v ≠ []) := by
  have h := c10_no_empty_cache_writes emptyStore emptyCache "x" ⟨false, false, false⟩
  have hres : (search emptyStore emptyCache "x" ⟨false, false, false⟩).results = [] := by
    rw [search_empty_store emptyCache "x" ⟨false, false, false⟩ (by decide) rfl rfl rfl
      (by decide)]
  exact ⟨h.1 hres, h.2 (fun k v hk => by simp [emptyCache] at hk)⟩

/-- C7: when the cache misses and the database raises during scoring, the
failure is caught: `search` returns the empty result list (it does not
raise), leaves the cache untouched, and logs a distinct database-error
event. -/
theorem c7_db_failure_fail_soft (st : Store) (cache : Cache) (q : String)
    (sc : SearchSched) (hq : pyStrip (pyLower q) ≠ "")
    (hmiss : cache ("search:" ++ pyStrip (pyLower q)) = none)
    (hget : sc.cacheGetFails = false)
    (hw : split_to_words (pyStrip (pyLower q)) ≠ [])
    (hdb : sc.dbFails = true) :
    (search st cache q sc).results = [] ∧
    (search st cache q sc).cache = cache ∧
    Op.logDbError ∈ (search st cache q sc).ops := by
  have hwe : (split_to_words (pyStrip (pyLower q))).isEmpty = false := by
    rw [List.isEmpty_eq_false]
    exact hw
  have heval : search st cache q sc =
      ⟨[], cache, [.cacheGet ("search:" ++ pyStrip (pyLower q)), .storeQuery,
        .logDbError]⟩ := by
    rw [search, if_neg hq, hget]
    simp only [Bool.false_eq_true, if_false, hmiss]
    rw [searchDbPhase]
    simp [hwe, hdb]
  rw [heval]
  exact ⟨rfl, rfl, by simp⟩

theorem c7_db_failure_fail_soft_witness :
    (search emptyStore emptyCache "cat" ⟨false, true, false⟩).results = [] ∧
    (search emptyStore emptyCache "cat" ⟨false, true, false⟩).cache = emptyCache ∧
    Op.logDbError ∈ (search emptyStore emptyCache "cat" ⟨false, true, false⟩).ops :=
  c7_db_failure_fail_soft emptyStore emptyCache "cat" ⟨false, true, false⟩
    (by decide) rfl rfl (by decide) rfl

/-! ## The TF-IDF score as a per-word sum -/

/-- Stored occurrence total of `w` in document `d` (one row per `(word, doc)`
key, so this is that row's `count`, or `0` when absent). -/
def occSum (st : Store) (d : Document) (w : String) : Nat :=
  ((st.index.filter (fun e => e.word == w && e.doc_id == d.id)).map
    (fun e => e.count)).sum

/-- Per-word TF–IDF contribution as the spec words it:
`tf = occurrenceCount / max(word_count, 1)` times the smoothed IDF of the
word (base-10 logarithm, as computed on PostgreSQL). -/
noncomputable def specWordScore (st : Store) (d : Document) (w : String) : ℝ :=
  ((occSum st d w : ℝ) / ((max d.word_count 1 : Nat) : ℝ)) *
    idf st.docs.length (df st w)

/-- Spec-side document score: sum of the per-word contributions over the
distinct query words. -/
noncomputable def specDocScore (st : Store) (qws : List String) (d : Document) : ℝ :=
  ((uniqueWords qws).map (specWordScore st d)).sum

theorem sum_map_ite_add {a : String} (F G : String → ℝ) :
    ∀ (l : List String), l.Nodup → a ∈ l →
      (l.map (fun w => if w = a then F w + G w else G w)).sum =
        F a + (l.map G).sum := by
  intro l
  induction l with
  | nil => intro _ ha; cases ha
  | cons x l' ih =>
    intro hnd hmem
    by_cases hx : x = a
    · subst hx
      have hxl : x ∉ l' := (List.nodup_cons.mp hnd).1
      have hcongr : ∀ w ∈ l',
          (fun w => if w = x then F w + G w else G w) w = G w := by
        intro w hw
        have : w ≠ x := fun h => hxl (h ▸ hw)
        simp [this]
      simp only [List.map_cons, List.sum_cons, if_pos rfl, if_true,
        List.map_congr_left hcongr]
      ring
    · have hmem' : a ∈ l' := by
        rcases List.mem_cons.mp hmem with h | h
        · exact absurd h.symm hx
        · exact h
      simp only [List.map_cons, List.sum_cons, if_neg hx,
        ih (List.Nodup.of_cons hnd) hmem']
      ring

/-- Grouping an entry-wise weighted sum by word: the sum over index rows of
`count · g(word)`, restricted to rows of document `d` with word in the query
set, equals the sum over the distinct query words of the stored occurrence
total times `g`. -/
theorem sum_entries_group_by_word (d : Document) (qws : List String)
    (g : String → ℝ) :
    ∀ (E : List IndexEntry),
      ((E.filter (fun e => e.doc_id == d.id && qws.contains e.word)).map
        (fun e => (e.count : ℝ) * g e.word)).sum =
      ((uniqueWords qws).map (fun w =>
        (((E.filter (fun e => e.word == w && e.doc_id == d.id)).map
          (fun e => (e.count : Nat))).sum : ℝ) * g w)).sum := by
  intro E
  induction E with
  | nil =>
    simp only [List.filter_nil, List.map_nil, List.sum_nil]
    rw [eq_comm]
    apply List.sum_eq_zero
    intro x hx
    rcases List.mem_map.mp hx with ⟨w, -, rfl⟩
    simp
  | cons a E' ih =>
    by_cases hP : (a.doc_id == d.id && qws.contains a.word) = true
    · have hdoc : (a.doc_id == d.id) = true := (Bool.and_eq_true_iff.mp hP).1
      have hword : a.word ∈ qws := by
        have := (Bool.and_eq_true_iff.mp hP).2
        simpa using this
      have hfc : (a :: E').filter (fun e => e.doc_id == d.id && qws.contains e.word)
          = a :: E'.filter (fun e => e.doc_id == d.id && qws.contains e.word) :=
        List.filter_cons_of_pos hP
      rw [hfc, List.map_cons, List.sum_cons, ih]
      have hcongr : ∀ w ∈ uniqueWords qws,
          (fun w =>
            (((((a :: E').filter (fun e => e.word == w && e.doc_id == d.id)).map
              (fun e => (e.count : Nat))).sum : ℕ) : ℝ) * g w) w =
          (if w = a.word
            then (a.count : ℝ) * g w +
              ((((E'.filter (fun e => e.word == w && e.doc_id == d.id)).map
                (fun e => (e.count : Nat))).sum : ℝ) * g w)
            else (((E'.filter (fun e => e.word == w && e.doc_id == d.id)).map
                (fun e => (e.count : Nat))).sum : ℝ) * g w) := by
        intro w hw
        simp only []
        by_cases hwe : w = a.word
        · subst hwe
          have hfc2 : (a :: E').filter
              (fun e => e.word == a.word && e.doc_id == d.id)
              = a :: E'.filter (fun e => e.word == a.word && e.doc_id == d.id) :=
            List.filter_cons_of_pos (by simp [hdoc])
          rw [hfc2, if_pos rfl, List.map_cons, List.sum_cons]
          push_cast
          ring
        · have hne : (a.word == w) = false :=
            beq_eq_false_iff_ne.mpr (fun h => hwe h.symm)
          have hfc2 : (a :: E').filter
              (fun e => e.word == w && e.doc_id == d.id)
              = E'.filter (fun e => e.word == w && e.doc_id == d.id) :=
            List.filter_cons_of_neg (by simp [hne])
          rw [hfc2, if_neg hwe]
      rw [List.map_congr_left hcongr,
        sum_map_ite_add (fun w => (a.count : ℝ) * g w)
          (fun w => (((E'.filter (fun e => e.word == w && e.doc_id == d.id)).map
            (fun e => (e.count : Nat))).sum : ℝ) * g w)
          (uniqueWords qws) nodup_uniqueWords (mem_uniqueWords.mpr hword)]
    · have hP' : (a.doc_id == d.id && qws.contains a.word) = false := by
        simpa using hP
      have hfc : (a :: E').filter (fun e => e.doc_id == d.id && qws.contains e.word)
          = E'.filter (fun e => e.doc_id == d.id && qws.contains e.word) :=
        List.filter_cons_of_neg (by rw [hP']; simp)
      rw [hfc, ih]
      apply congrArg
      apply List.map_congr_left
      intro w hw
      have hQ : (a.word == w && a.doc_id == d.id) = false := by
        rcases Bool.and_eq_false_iff.mp hP' with hd | hc
        · rw [Bool.and_eq_false_iff]
          exact Or.inr hd
        · rw [Bool.and_eq_false_iff]
          left
          have hwq : w ∈ qws := mem_uniqueWords.mp hw
          have hnq : a.word ∉ qws := by simpa using hc
          exact beq_eq_false_iff_ne.mpr (fun h => hnq (h ▸ hwq))
      have hfc2 : (a :: E').filter (fun e => e.word == w && e.doc_id == d.id)
          = E'.filter (fun e => e.word == w && e.doc_id == d.id) :=
        List.filter_cons_of_neg (by simp [hQ])
      rw [hfc2]

/-- The aggregated SQL score of a document equals the spec's per-word
formula: the sum over the distinct query words of `tf · idf`. -/
theorem docScore_eq_specDocScore (st : Store) (qws : List String) (d : Document) :
    docScore st qws d = specDocScore st qws d := by
  rw [docScore, specDocScore]
  have hterm : ∀ e ∈ st.index.filter
      (fun e => e.doc_id == d.id && qws.contains e.word),
      (fun e => tf d e * idf st.docs.length (df st e.word)) e =
        (e.count : ℝ) *
          (idf st.docs.length (df st e.word) / ((max d.word_count 1 : Nat) : ℝ)) := by
    intro e he
    simp only [tf]
    ring
  rw [entriesFor, List.map_congr_left hterm,
    sum_entries_group_by_word d qws
      (fun w => idf st.docs.length (df st w) / ((max d.word_count 1 : Nat) : ℝ))]
  apply congrArg
  apply List.map_congr_left
  intro w hw
  simp only [specWordScore, occSum]
  push_cast
  ring

/-! ## The spec's two-document example store -/

/-- The store after ingesting `("a", "the cat sat on the mat")` and
`("b", "the dog sat on the log")` into an empty store. -/
def catStore : Store :=
  (add_document (add_document emptyStore emptyCache "a" "the cat sat on the mat"
      ⟨false, false, false⟩).store emptyCache "b" "the dog sat on the log"
      ⟨false, false, false⟩).store

def docA : Document := ⟨1, "a", "the cat sat on the mat", 6⟩

def docB : Document := ⟨2, "b", "the dog sat on the log", 6⟩

theorem catStore_eq :
    catStore =
      ⟨[docA, docB],
       [⟨"the", 1, 2⟩, ⟨"cat", 1, 1⟩, ⟨"sat", 1, 1⟩, ⟨"on", 1, 1⟩, ⟨"mat", 1, 1⟩,
        ⟨"the", 2, 2⟩, ⟨"dog", 2, 1⟩, ⟨"sat", 2, 1⟩, ⟨"on", 2, 1⟩, ⟨"log", 2, 1⟩],
       3⟩ := by
  decide

theorem docScore_cat_a :
    docScore catStore ["cat"] docA = (1 / 6 : ℝ) * Real.logb 10 (3 / 2) := by
  rw [docScore,
    show entriesFor catStore ["cat"] docA = [⟨"cat", 1, 1⟩] from by decide,
    show catStore.docs.length = 2 from by decide]
  rw [List.map_cons, List.map_nil, List.sum_cons, List.sum_nil,
    show df catStore "cat" = 1 from by decide]
  rw [tf, idf]
  norm_num
  rw [show docA.word_count = 6 from rfl]
  norm_num

theorem scoredRows_cat :
    scoredRows catStore ["cat"] =
      [⟨1, "a", (1 / 6 : ℝ) * Real.logb 10 (3 / 2)⟩] := by
  rw [scoredRows,
    show matchingDocs catStore ["cat"] = [docA] from by decide,
    List.map_cons, List.map_nil, docScore_cat_a]
  rfl

theorem logb_ten_three_halves_nonneg : (0 : ℝ) ≤ Real.logb 10 (3 / 2) :=
  Real.logb_nonneg (by norm_num) (by norm_num)

theorem searchCompute_cat :
    searchCompute catStore ["cat"] =
      [⟨"a", (1 / 6 : ℝ) * Real.logb 10 (3 / 2)⟩] := by
  have hpos : (0 : ℝ) ≤ (1 / 6 : ℝ) * Real.logb 10 (3 / 2) :=
    mul_nonneg (by norm_num) logb_ten_three_halves_nonneg
  rw [searchCompute, scoredRows_cat]
  rw [show ([(⟨1, "a", (1 / 6 : ℝ) * Real.logb 10 (3 / 2)⟩ : Row)].insertionSort
      scoreGE) = [⟨1, "a", (1 / 6 : ℝ) * Real.logb 10 (3 / 2)⟩] from rfl]
  rw [show ([(⟨1, "a", (1 / 6 : ℝ) * Real.logb 10 (3 / 2)⟩ : Row)].take 10)
      = [⟨1, "a", (1 / 6 : ℝ) * Real.logb 10 (3 / 2)⟩] from rfl]
  rw [postProcess]
  rw [List.filter_cons_of_pos (by simpa using hpos), List.filter_nil]
  rfl

/-- Evaluation of a cache-missing, failure-free `search` against a non-empty
store: the result list is computed from the store and, being non-empty,
written to the cache. -/
theorem search_miss_eval (st : Store) (cache : Cache) (q : String)
    (sc : SearchSched) (rs : List SearchResult)
    (hq : pyStrip (pyLower q) ≠ "")
    (hmiss : cache ("search:" ++ pyStrip (pyLower q)) = none)
    (hget : sc.cacheGetFails = false) (hdb : sc.dbFails = false)
    (hset : sc.cacheSetFails = false)
    (hw : split_to_words (pyStrip (pyLower q)) ≠ [])
    (hN : st.docs.length ≠ 0)
    (hrs : searchCompute st (split_to_words (pyStrip (pyLower q))) = rs)
    (hne : rs ≠ []) :
    search st cache q sc =
      ⟨rs, cacheSet cache ("search:" ++ pyStrip (pyLower q)) rs,
       [.cacheGet ("search:" ++ pyStrip (pyLower q)), .storeQuery, .storeQuery,
        .cacheSetOp ("search:" ++ pyStrip (pyLower q))]⟩ := by
  have hwe : (split_to_words (pyStrip (pyLower q))).isEmpty = false := by
    rw [List.isEmpty_eq_false]
    exact hw
  have hrse : rs.isEmpty = false := by
    rw [List.isEmpty_eq_false]
    exact hne
  rw [search, if_neg hq, hget]
  simp only [Bool.false_eq_true, if_false, hmiss]
  rw [searchDbPhase]
  simp only [hwe, Bool.false_eq_true, if_false, hdb, if_neg hN, hrs, hrse, hset]
  simp

theorem search_cat :
    search catStore emptyCache "cat" ⟨false, false, false⟩ =
      ⟨[⟨"a", (1 / 6 : ℝ) * Real.logb 10 (3 / 2)⟩],
       cacheSet emptyCache "search:cat"
         [⟨"a", (1 / 6 : ℝ) * Real.logb 10 (3 / 2)⟩],
       [.cacheGet "search:cat", .storeQuery, .storeQuery,
        .cacheSetOp "search:cat"]⟩ := by
  have h := search_miss_eval catStore emptyCache "cat" ⟨false, false, false⟩
    [⟨"a", (1 / 6 : ℝ) * Real.logb 10 (3 / 2)⟩]
    (by decide) rfl rfl rfl rfl (by decide) (by decide)
    (by rw [show split_to_words (pyStrip (pyLower "cat")) = ["cat"] from by decide,
      searchCompute_cat])
    (by simp)
  rw [h]
  rw [show ("search:" ++ pyStrip (pyLower "cat")) = "search:cat" from by decide]

/-! ## Claims about scoring -/

/-- C2, counterexample to the claim as stated: SQLAlchemy's `func.log` is
PostgreSQL's base-10 `log`, so on the spec's two-document store the score of
`"a"` for the query `"cat"` is `(1/6)·log₁₀(3/2)`, which differs from the
claimed `(1/6)·ln(3/2)`. -/
theorem c2_claim_counterexample :
    (search catStore emptyCache "cat" ⟨false, false, false⟩).results =
      [⟨"a", (1 / 6 : ℝ) * Real.logb 10 (3 / 2)⟩] ∧
    (1 / 6 : ℝ) * Real.logb 10 (3 / 2) ≠ (1 / 6 : ℝ) * Real.log (3 / 2) := by
  constructor
  · rw [search_cat]
  · have h32 : (0 : ℝ) < Real.log (3 / 2) := Real.log_pos (by norm_num)
    have h10 : (1 : ℝ) < Real.log 10 := by
      have he : Real.exp 1 < 10 := lt_trans Real.exp_one_lt_d9 (by norm_num)
      have hlog := Real.log_lt_log (Real.exp_pos 1) he
      rwa [Real.log_exp] at hlog
    rw [Real.logb]
    intro h
    have h6 : (1 / 6 : ℝ) ≠ 0 := by norm_num
    have h' : Real.log (3 / 2) / Real.log 10 = Real.log (3 / 2) :=
      mul_left_cancel₀ h6 h
    have hT : Real.log 10 ≠ 0 := by linarith
    field_simp at h'
    nlinarith [mul_pos h32 (sub_pos.mpr h10)]

/-- C2 (amended): the score computed by `search` for each matching document
is the sum over the distinct matching query words of `tf · idf` with
`idf = log₁₀((N + 1)/(df + 1))` (the base-10 logarithm computed by
PostgreSQL's `log`) and `tf = count / max(word_count, 1)`; in particular, on
the store holding exactly `("a", "the cat sat on the mat")` and
`("b", "the dog sat on the log")`, `search("cat")` returns exactly one
result, named `"a"`, with score `(1/6)·log₁₀(3/2)`. -/
theorem c2_score_formula_log10 :
    (∀ (st : Store) (qws : List String) (d : Document),
      docScore st qws d = specDocScore st qws d) ∧
    (search catStore emptyCache "cat" ⟨false, false, false⟩).results =
      [⟨"a", (1 / 6 : ℝ) * Real.logb 10 (3 / 2)⟩] :=
  ⟨docScore_eq_specDocScore, by rw [search_cat]⟩

/-! ## The ORDER BY tie relation (claim C3) -/

/-- Relational semantics of `ORDER BY total_score DESC LIMIT 10`: SQL fixes
no order among rows with equal scores (the query has no tiebreak key), so any
score-descending permutation of the result rows, truncated to the first 10,
is an admissible execution. -/
def validRowOrder (st : Store) (qws : List String) (out : List Row) : Prop :=
  ∃ l, (scoredRows st qws).Perm l ∧ l.Sorted scoreGE ∧ out = l.take 10

/-- The result lists an execution of the database phase of `search` may
return for query `q` (bypassing the cache): an admissible row order,
post-processed into `SearchResult`s. -/
def validSearchResults (st : Store) (q : String) (out : List SearchResult) : Prop :=
  ∃ rows, validRowOrder st (split_to_words (pyStrip (pyLower q))) rows ∧
    out = postProcess rows

theorem docScore_sat_a : docScore catStore ["sat"] docA = 0 := by
  rw [docScore,
    show entriesFor catStore ["sat"] docA = [⟨"sat", 1, 1⟩] from by decide,
    show catStore.docs.length = 2 from by decide]
  rw [List.map_cons, List.map_nil, List.sum_cons, List.sum_nil,
    show df catStore "sat" = 2 from by decide]
  rw [tf, idf]
  norm_num [Real.logb_one]

theorem docScore_sat_b : docScore catStore ["sat"] docB = 0 := by
  rw [docScore,
    show entriesFor catStore ["sat"] docB = [⟨"sat", 2, 1⟩] from by decide,
    show catStore.docs.length = 2 from by decide]
  rw [List.map_cons, List.map_nil, List.sum_cons, List.sum_nil,
    show df catStore "sat" = 2 from by decide]
  rw [tf, idf]
  norm_num [Real.logb_one]

theorem scoredRows_sat :
    scoredRows catStore ["sat"] = [⟨1, "a", 0⟩, ⟨2, "b", 0⟩] := by
  rw [scoredRows, show matchingDocs catStore ["sat"] = [docA, docB] from by decide,
    List.map_cons, List.map_cons, List.map_nil, docScore_sat_a, docScore_sat_b]
  rfl

theorem postProcess_sat_ab :
    postProcess [⟨1, "a", 0⟩, ⟨2, "b", 0⟩] = [⟨"a", 0⟩, ⟨"b", 0⟩] := by
  rw [postProcess, List.filter_cons_of_pos (by simp),
    List.filter_cons_of_pos (by simp), List.filter_nil]
  rfl

theorem postProcess_sat_ba :
    postProcess [⟨2, "b", 0⟩, ⟨1, "a", 0⟩] = [⟨"b", 0⟩, ⟨"a", 0⟩] := by
  rw [postProcess, List.filter_cons_of_pos (by simp),
    List.filter_cons_of_pos (by simp), List.filter_nil]
  rfl

theorem valid_sat_ab :
    validSearchResults catStore "sat" [⟨"a", 0⟩, ⟨"b", 0⟩] := by
  refine ⟨[⟨1, "a", 0⟩, ⟨2, "b", 0⟩],
    ⟨[⟨1, "a", 0⟩, ⟨2, "b", 0⟩], ?_, ?_, ?_⟩, postProcess_sat_ab.symm⟩
  · rw [show split_to_words (pyStrip (pyLower "sat")) = ["sat"] from by decide,
      scoredRows_sat]
  · simp [List.sorted_cons, scoreGE]
  · rfl

theorem valid_sat_ba :
    validSearchResults catStore "sat" [⟨"b", 0⟩, ⟨"a", 0⟩] := by
  refine ⟨[⟨2, "b", 0⟩, ⟨1, "a", 0⟩],
    ⟨[⟨2, "b", 0⟩, ⟨1, "a", 0⟩], ?_, ?_, ?_⟩, postProcess_sat_ba.symm⟩
  · rw [show split_to_words (pyStrip (pyLower "sat")) = ["sat"] from by decide,
      scoredRows_sat]
    exact List.Perm.swap _ _ _
  · simp [List.sorted_cons, scoreGE]
  · rfl

/-- C3, counterexample to the claim as stated: on the spec's two-document
store both documents match `"sat"` with equal score `0`, and the `ORDER BY`
without a tiebreak allows both result orders — two executions bypassing the
cache may return differently ordered sequences, so the result order is not
deterministic. -/
theorem c3_claim_counterexample :
    validSearchResults catStore "sat" [⟨"a", 0⟩, ⟨"b", 0⟩] ∧
    validSearchResults catStore "sat" [⟨"b", 0⟩, ⟨"a", 0⟩] ∧
    ([⟨"a", 0⟩, ⟨"b", 0⟩] : List SearchResult) ≠ [⟨"b", 0⟩, ⟨"a", 0⟩] := by
  refine ⟨valid_sat_ab, valid_sat_ba, ?_⟩
  intro h
  have h1 := congrArg (fun l : List SearchResult => l.map (fun r => r.name)) h
  simp only [List.map_cons, List.map_nil] at h1
  exact absurd h1 (by decide)

/-- C3 (amended): every result sequence an execution of `search` may return
is sorted by descending score and truncated to at most 10 entries, but the
order among equal scores is not fixed by the code (no deterministic
tiebreak). -/
theorem c3_results_sorted_truncated (st : Store) (q : String)
    (out : List SearchResult) (h : validSearchResults st q out) :
    out.Sorted (fun a b => b.score ≤ a.score) ∧ out.length ≤ 10 := by
  obtain ⟨rows, ⟨l, hperm, hsort, hrows⟩, hout⟩ := h
  subst hrows
  subst hout
  constructor
  · rw [postProcess]
    have h1 : ((l.take 10).filter
        (fun r => decide (0 ≤ r.total_score))).Sorted scoreGE :=
      List.Pairwise.sublist
        ((List.filter_sublist _).trans (List.take_sublist _ _)) hsort
    exact h1.map _ (fun a b hab => hab)
  · rw [postProcess, List.length_map]
    calc ((l.take 10).filter (fun r => decide (0 ≤ r.total_score))).length
        ≤ (l.take 10).length := List.length_filter_le _ _
      _ ≤ 10 := List.length_take_le _ _

theorem c3_results_sorted_truncated_witness :
    ([⟨"a", 0⟩, ⟨"b", 0⟩] : List SearchResult).Sorted
      (fun a b => b.score ≤ a.score) ∧
    ([⟨"a", 0⟩, ⟨"b", 0⟩] : List SearchResult).length ≤ 10 :=
  c3_results_sorted_truncated catStore "sat" _ valid_sat_ab
